import Mathlib

/-!
Verification of the odds aggregation and ranking engine of the
football-intelligence dashboard (src/app.py, class `FootballIntelligence`).

The embedding models Python dicts read with `.get` as structures with
`Option` fields, Python numbers (ints and floats parsed from decimal JSON
odds) as exact rationals `ℚ`, and the one place where the code can raise
(`max` applied to a non-numeric price, a `TypeError` in Python 3) as
`Except String`.  Python's stable in-place `list.sort(key=...)` is modelled
by a stable insertion sort (stable sorts agree extensionally, so this is
faithful to CPython's Timsort).
-/

/-- A JSON-ish value sitting in an outcome's `price` field: a number
(modelled exactly as a rational) or a non-numeric value (string, null, ...),
which Python 3's `max(0, price)` rejects with a `TypeError`. -/
inductive PriceVal where
  | num (q : ℚ)
  | nonNum (tag : String)
  deriving DecidableEq

/-- One entry of a market's `outcomes` list; fields read with
`outcome.get('name')` and `outcome.get('price', 0)` in src/app.py:75-76. -/
structure Outcome where
  name : Option String
  price : Option PriceVal
  deriving DecidableEq

/-- One entry of a bookmaker's `markets` list; `market.get('key')`,
`market.get('outcomes', [])` (src/app.py:72-74). -/
structure Market where
  key : Option String
  outcomes : List Outcome
  deriving DecidableEq

/-- One entry of a fixture's `bookmakers` list; `bookmaker.get('markets', [])`
(src/app.py:70-71). -/
structure Bookmaker where
  markets : List Market
  deriving DecidableEq

/-- A raw fixture dict as consumed by `analyze_match` (src/app.py:59-64):
`home_team`, `away_team`, `commence_time` default when absent;
`bookmakers` defaults to the empty list. -/
structure RawMatch where
  home_team : Option String
  away_team : Option String
  commence_time : Option String
  bookmakers : List Bookmaker
  deriving DecidableEq

/-- The `best_odds` dict `{'home': .., 'draw': .., 'away': ..}`
(src/app.py:68). -/
structure BestOdds where
  home : ℚ
  draw : ℚ
  away : ℚ
  deriving DecidableEq

/-- One candidate pick dict `{'pick': .., 'odds': .., 'confidence': ..}`
(src/app.py:96-100). -/
structure Pick where
  pick : String
  odds : ℚ
  confidence : ℕ
  deriving DecidableEq

/-- The analysis dict returned by `analyze_match` (src/app.py:107-112).
The source key `'match'` is a Lean keyword, rendered here as `label`. -/
structure Analysis where
  label : String
  commence_time : String
  odds : BestOdds
  recommendation : Pick
  deriving DecidableEq

/-- One iteration of the innermost loop of `analyze_match` (src/app.py:74-83):
read the outcome's name and price, classify by name equality with the home
and away team strings (anything else is draw), and fold the price into the
running best with `max`.  An absent price defaults to `0`
(`outcome.get('price', 0)`); a present but non-numeric price makes
`max(best_odds[...], price)` raise `TypeError`. -/
def updateOutcome (home away : String) (b : BestOdds) (o : Outcome) :
    Except String BestOdds :=
  match o.price.getD (PriceVal.num 0) with
  | PriceVal.num q =>
      if o.name = some home then Except.ok { b with home := max b.home q }
      else if o.name = some away then Except.ok { b with away := max b.away q }
      else Except.ok { b with draw := max b.draw q }
  | PriceVal.nonNum _ => Except.error "TypeError"

/-- The loop over `market.get('outcomes', [])` (src/app.py:74). -/
def foldOutcomes (home away : String) : BestOdds → List Outcome → Except String BestOdds
  | b, [] => Except.ok b
  | b, o :: os =>
      match updateOutcome home away b o with
      | Except.ok b' => foldOutcomes home away b' os
      | Except.error e => Except.error e

/-- The loop over a bookmaker's markets: only markets whose key is `'h2h'`
contribute (src/app.py:72-73). -/
def foldMarkets (home away : String) : BestOdds → List Market → Except String BestOdds
  | b, [] => Except.ok b
  | b, m :: ms =>
      match (if m.key = some "h2h" then foldOutcomes home away b m.outcomes
             else Except.ok b) with
      | Except.ok b' => foldMarkets home away b' ms
      | Except.error e => Except.error e

/-- The loop over the fixture's bookmakers (src/app.py:70). -/
def foldBookmakers (home away : String) : BestOdds → List Bookmaker → Except String BestOdds
  | b, [] => Except.ok b
  | b, bk :: bks =>
      match foldMarkets home away b bk.markets with
      | Except.ok b' => foldBookmakers home away b' bks
      | Except.error e => Except.error e

/-- The whole best-price reduction of `analyze_match`, starting from
`{'home': 0, 'draw': 0, 'away': 0}` (src/app.py:68-83). -/
def bestOddsOf (home away : String) (bks : List Bookmaker) : Except String BestOdds :=
  foldBookmakers home away ⟨0, 0, 0⟩ bks

/-- The acceptance band test `1.80 <= odd <= 2.20` (src/app.py:88). -/
def inBand (q : ℚ) : Prop := 1.80 ≤ q ∧ q ≤ 2.20

instance (q : ℚ) : Decidable (inBand q) := instDecidableAnd

/-- The confidence computation (src/app.py:90-99): base 50, +10 when the
price is below 2.05, +5 for the home outcome, clamped above at 85. -/
def confidenceOf (outcome : String) (odd : ℚ) : ℕ :=
  let c := 50
  let c := if odd < 2.05 then c + 10 else c
  let c := if outcome = "home" then c + 5 else c
  min c 85

/-- The candidate dict appended for an in-band outcome (src/app.py:96-100);
`'pick': outcome.upper()`. -/
def pickFor (outcome : String) (odd : ℚ) : Pick :=
  { pick := outcome.toUpper, odds := odd, confidence := confidenceOf outcome odd }

/-- The candidate-building loop over `best_odds.items()` (src/app.py:86-100).
Python dicts iterate in insertion order, so the candidates are considered
in the order home, draw, away; an outcome enters contention iff its best
price lies in the band. -/
def mkPicks (b : BestOdds) : List Pick :=
  (if inBand b.home then [pickFor "home" b.home] else []) ++
  (if inBand b.draw then [pickFor "draw" b.draw] else []) ++
  (if inBand b.away then [pickFor "away" b.away] else [])

/-- Stable insertion step, ascending in `key`: the new element goes in
front of the first existing element whose key is `≥` its own, so earlier
elements keep priority on ties (as CPython's stable `list.sort` does). -/
def insertAsc {α β : Type} [LinearOrder β] (key : α → β) (a : α) :
    List α → List α
  | [] => [a]
  | b :: l => if key a ≤ key b then a :: b :: l else b :: insertAsc key a l

/-- Stable ascending sort by `key`, modelling `picks.sort(key=...)`
(src/app.py:105). -/
def sortAsc {α β : Type} [LinearOrder β] (key : α → β) : List α → List α
  | [] => []
  | a :: l => insertAsc key a (sortAsc key l)

/-- Stable insertion step, descending in `key`: models
`list.sort(key=..., reverse=True)`, which orders by descending key while
keeping ties in original order. -/
def insertDesc {α β : Type} [LinearOrder β] (key : α → β) (a : α) :
    List α → List α
  | [] => [a]
  | b :: l => if key b ≤ key a then a :: b :: l else b :: insertDesc key a l

/-- Stable descending sort by `key` (src/app.py:126). -/
def sortDesc {α β : Type} [LinearOrder β] (key : α → β) : List α → List α
  | [] => []
  | a :: l => insertDesc key a (sortDesc key l)

/-- `FootballIntelligence.analyze_match` (src/app.py:59-112).  The source
returns `None` when `picks` is empty and otherwise sorts `picks` by
`abs(odds - target_odds)` and returns `picks[0]`; since the sort of a list
is empty exactly when the list is, both checks are made on the sorted list
here. -/
def analyze_match (m : RawMatch) (target_odds : ℚ) : Except String (Option Analysis) :=
  let home := m.home_team.getD "Unknown"
  let away := m.away_team.getD "Unknown"
  if m.bookmakers = [] then Except.ok none
  else
    match bestOddsOf home away m.bookmakers with
    | Except.error e => Except.error e
    | Except.ok best =>
        match sortAsc (fun p => |p.odds - target_odds|) (mkPicks best) with
        | [] => Except.ok none
        | p :: _ =>
            Except.ok (some { label := home ++ " vs " ++ away,
                              commence_time := m.commence_time.getD "Unknown",
                              odds := best,
                              recommendation := p })

/-- The inner loop of `find_best_bets` (src/app.py:121-124): analyze a batch
of fixtures in order, keeping the successful analyses; an exception raised
by `analyze_match` propagates to the caller. -/
def analyzeFixtures (target : ℚ) : List RawMatch → Except String (List Analysis)
  | [] => Except.ok []
  | m :: ms =>
      match analyze_match m target with
      | Except.error e => Except.error e
      | Except.ok none => analyzeFixtures target ms
      | Except.ok (some a) =>
          match analyzeFixtures target ms with
          | Except.error e => Except.error e
          | Except.ok rest => Except.ok (a :: rest)

/-- The fan-out over leagues (src/app.py:118-124): for each league, at most
the first 5 fixtures (`matches[:5]`) are analyzed; the data source
`get_matches_with_odds` is abstracted as the `fetch` collaborator. -/
def collectAnalyses (fetch : String → List RawMatch) (target : ℚ) :
    List String → Except String (List Analysis)
  | [] => Except.ok []
  | lg :: rest =>
      match analyzeFixtures target ((fetch lg).take 5) with
      | Except.error e => Except.error e
      | Except.ok here =>
          match collectAnalyses fetch target rest with
          | Except.error e => Except.error e
          | Except.ok there => Except.ok (here ++ there)

/-- `FootballIntelligence.find_best_bets` (src/app.py:114-127): collect the
analyses league by league, then stable-sort descending by the
recommendation's confidence. -/
def find_best_bets (fetch : String → List RawMatch) (leagues : List String)
    (target : ℚ) : Except String (List Analysis) :=
  match collectAnalyses fetch target leagues with
  | Except.error e => Except.error e
  | Except.ok l =>
      Except.ok (sortDesc (fun a => a.recommendation.confidence) l)

/-- Componentwise comparison of two best-price records. -/
def leOdds (b b' : BestOdds) : Prop :=
  b.home ≤ b'.home ∧ b.draw ≤ b'.draw ∧ b.away ≤ b'.away

/-- All prices occurring in the fixture are absent or numeric — the shapes
on which Python's `max` cannot raise. -/
def NumericPrices (m : RawMatch) : Prop :=
  ∀ bk ∈ m.bookmakers, ∀ mk ∈ bk.markets, ∀ o ∈ mk.outcomes,
    ∀ s, o.price ≠ some (PriceVal.nonNum s)

/-- A well-formed outcome line with a numeric price. -/
def exOutcome (n : String) (q : ℚ) : Outcome :=
  { name := some n, price := some (PriceVal.num q) }

/-- A fixture with a single bookmaker quoting a single h2h market. -/
def exFixture (hm aw : String) (outs : List Outcome) : RawMatch :=
  { home_team := some hm, away_team := some aw, commence_time := none,
    bookmakers := [{ markets := [{ key := some "h2h", outcomes := outs }] }] }

/-- The spec's running example: Arsenal/Chelsea with quotes 2.00/3.40/3.60. -/
def exMatch1 : RawMatch :=
  exFixture "Arsenal" "Chelsea"
    [exOutcome "Arsenal" 2.00, exOutcome "Draw" 3.40, exOutcome "Chelsea" 3.60]

/-- The analysis `analyze_match` produces for `exMatch1`. -/
def exAnalysis1 : Analysis :=
  { label := "Arsenal vs Chelsea", commence_time := "Unknown",
    odds := ⟨2, 3.40, 3.60⟩, recommendation := ⟨"HOME", 2, 65⟩ }

/-- The analysis `analyze_match` produces for `exConf50`. -/
def exAnalysis50 : Analysis :=
  { label := "H vs A", commence_time := "Unknown",
    odds := ⟨0, 0, 2.10⟩, recommendation := ⟨"AWAY", 2.10, 50⟩ }

/-- Home best price exactly on the upper band edge. -/
def exBand220 : RawMatch := exFixture "H" "A" [exOutcome "H" 2.20]

/-- Home best price just above the band. -/
def exBand221 : RawMatch := exFixture "H" "A" [exOutcome "H" 2.21]

/-- Only the away outcome in band, price not below 2.05: confidence 50. -/
def exConf50 : RawMatch := exFixture "H" "A" [exOutcome "A" 2.10]

/-- Only the home outcome in band, price not below 2.05: confidence 55. -/
def exConf55 : RawMatch := exFixture "H" "A" [exOutcome "H" 2.10]

/-- Only the draw in band (name matches neither team), price below 2.05:
confidence 60. -/
def exConf60 : RawMatch := exFixture "H" "A" [exOutcome "X" 2.00]

/-- A fixture whose single outcome carries a non-numeric price value. -/
def exBadMatch : RawMatch :=
  { home_team := some "H", away_team := some "A", commence_time := none,
    bookmakers :=
      [{ markets := [{ key := some "h2h",
                       outcomes := [{ name := some "H",
                                      price := some (PriceVal.nonNum "nan") }] }] }] }

/-- A fixture with no bookmaker entries. -/
def exNoBooks : RawMatch :=
  { home_team := some "H", away_team := some "A", commence_time := none,
    bookmakers := [] }

/-- A single-quote bookmaker used to extend a fixture's bookmaker list. -/
def exBk (n : String) (q : ℚ) : Bookmaker :=
  { markets := [{ key := some "h2h", outcomes := [exOutcome n q] }] }

/-- A data source returning the same two fixtures for every league. -/
def exFetch2 : String → List RawMatch := fun _ => [exMatch1, exConf50]

/-- A data source returning eight fixtures for every league. -/
def exFetch8 : String → List RawMatch := fun _ => List.replicate 8 exMatch1

theorem toUpper_home : "home".toUpper = "HOME" := by
  show String.map Char.toUpper "home" = "HOME"
  rw [String.map_eq]; decide

theorem toUpper_draw : "draw".toUpper = "DRAW" := by
  show String.map Char.toUpper "draw" = "DRAW"
  rw [String.map_eq]; decide

theorem toUpper_away : "away".toUpper = "AWAY" := by
  show String.map Char.toUpper "away" = "AWAY"
  rw [String.map_eq]; decide

theorem analyze_exMatch1 : ∀ t : ℚ, t = 2 ∨ t = 3 →
    analyze_match exMatch1 t = Except.ok (some exAnalysis1) := by
  rintro t (rfl | rfl) <;>
  · simp [analyze_match, bestOddsOf, foldBookmakers, foldMarkets, foldOutcomes,
      updateOutcome, mkPicks, pickFor, confidenceOf, inBand, sortAsc, insertAsc,
      exMatch1, exFixture, exOutcome, exAnalysis1, toUpper_home, toUpper_draw, toUpper_away]
    norm_num [sortAsc, insertAsc, max_def]

theorem insertAsc_perm {α β : Type} [LinearOrder β] (key : α → β) (a : α) :
    ∀ l : List α, (insertAsc key a l).Perm (a :: l)
  | [] => List.Perm.refl _
  | b :: l => by
      unfold insertAsc
      split
      · exact List.Perm.refl _
      · exact (List.Perm.cons b (insertAsc_perm key a l)).trans (List.Perm.swap a b l)

theorem sortAsc_perm {α β : Type} [LinearOrder β] (key : α → β) :
    ∀ l : List α, (sortAsc key l).Perm l
  | [] => List.Perm.refl _
  | a :: l => (insertAsc_perm key a _).trans (List.Perm.cons a (sortAsc_perm key l))

theorem mem_insertAsc {α β : Type} [LinearOrder β] {key : α → β} {a x : α} {l : List α} :
    x ∈ insertAsc key a l ↔ x = a ∨ x ∈ l := by
  rw [(insertAsc_perm key a l).mem_iff, List.mem_cons]

theorem pairwise_insertAsc {α β : Type} [LinearOrder β] (key : α → β) (a : α) :
    ∀ l : List α, l.Pairwise (fun x y => key x ≤ key y) →
      (insertAsc key a l).Pairwise (fun x y => key x ≤ key y)
  | [], _ => List.pairwise_singleton _ a
  | b :: l, h => by
      unfold insertAsc
      split
      case isTrue hab =>
        refine List.Pairwise.cons ?_ h
        intro x hx
        rcases List.mem_cons.1 hx with rfl | hx
        · exact hab
        · exact le_trans hab ((List.pairwise_cons.1 h).1 x hx)
      case isFalse hab =>
        refine List.Pairwise.cons ?_
          (pairwise_insertAsc key a l (List.pairwise_cons.1 h).2)
        intro x hx
        rcases mem_insertAsc.1 hx with rfl | hx
        · exact le_of_not_le hab
        · exact (List.pairwise_cons.1 h).1 x hx

theorem pairwise_sortAsc {α β : Type} [LinearOrder β] (key : α → β) :
    ∀ l : List α, (sortAsc key l).Pairwise (fun x y => key x ≤ key y)
  | [] => List.Pairwise.nil
  | a :: l => pairwise_insertAsc key a _ (pairwise_sortAsc key l)

theorem sortAsc_nil_iff {α β : Type} [LinearOrder β] (key : α → β) (l : List α) :
    sortAsc key l = [] ↔ l = [] := by
  constructor
  · intro h
    exact ((h ▸ sortAsc_perm key l).symm).eq_nil
  · rintro rfl
    rfl

theorem sortAsc_head_le {α β : Type} [LinearOrder β] {key : α → β} {l : List α}
    {p : α} {rest : List α} (h : sortAsc key l = p :: rest) :
    ∀ x ∈ l, key p ≤ key x := by
  intro x hx
  have hx' : x ∈ p :: rest := h ▸ (sortAsc_perm key l).mem_iff.2 hx
  rcases List.mem_cons.1 hx' with rfl | hx'
  · exact le_refl _
  · exact (List.pairwise_cons.1 (h ▸ pairwise_sortAsc key l)).1 x hx'

theorem insertDesc_perm {α β : Type} [LinearOrder β] (key : α → β) (a : α) :
    ∀ l : List α, (insertDesc key a l).Perm (a :: l)
  | [] => List.Perm.refl _
  | b :: l => by
      unfold insertDesc
      split
      · exact List.Perm.refl _
      · exact (List.Perm.cons b (insertDesc_perm key a l)).trans (List.Perm.swap a b l)

theorem sortDesc_perm {α β : Type} [LinearOrder β] (key : α → β) :
    ∀ l : List α, (sortDesc key l).Perm l
  | [] => List.Perm.refl _
  | a :: l => (insertDesc_perm key a _).trans (List.Perm.cons a (sortDesc_perm key l))

theorem mem_insertDesc {α β : Type} [LinearOrder β] {key : α → β} {a x : α} {l : List α} :
    x ∈ insertDesc key a l ↔ x = a ∨ x ∈ l := by
  rw [(insertDesc_perm key a l).mem_iff, List.mem_cons]

theorem pairwise_insertDesc {α β : Type} [LinearOrder β] (key : α → β) (a : α) :
    ∀ l : List α, l.Pairwise (fun x y => key y ≤ key x) →
      (insertDesc key a l).Pairwise (fun x y => key y ≤ key x)
  | [], _ => List.pairwise_singleton _ a
  | b :: l, h => by
      unfold insertDesc
      split
      case isTrue hab =>
        refine List.Pairwise.cons ?_ h
        intro x hx
        rcases List.mem_cons.1 hx with rfl | hx
        · exact hab
        · exact le_trans ((List.pairwise_cons.1 h).1 x hx) hab
      case isFalse hab =>
        refine List.Pairwise.cons ?_
          (pairwise_insertDesc key a l (List.pairwise_cons.1 h).2)
        intro x hx
        rcases mem_insertDesc.1 hx with rfl | hx
        · exact le_of_not_le hab
        · exact (List.pairwise_cons.1 h).1 x hx

theorem pairwise_sortDesc {α β : Type} [LinearOrder β] (key : α → β) :
    ∀ l : List α, (sortDesc key l).Pairwise (fun x y => key y ≤ key x)
  | [] => List.Pairwise.nil
  | a :: l => pairwise_insertDesc key a _ (pairwise_sortDesc key l)

theorem filter_insertDesc {α : Type} (key : α → ℕ) (k : ℕ) (a : α) :
    ∀ l : List α, (insertDesc key a l).filter (fun x => key x == k) =
      if key a = k then a :: l.filter (fun x => key x == k)
      else l.filter (fun x => key x == k)
  | [] => by
      by_cases hk : key a = k <;> simp [insertDesc, hk]
  | b :: l => by
      unfold insertDesc
      split
      case isTrue hab =>
        by_cases hk : key a = k <;> simp [hk, List.filter_cons]
      case isFalse hab =>
        have hba : key a < key b := lt_of_not_le hab
        by_cases hk : key a = k
        · have hbk : (key b == k) = false := by
            subst hk
            exact beq_false_of_ne (Nat.ne_of_gt hba)
          rw [if_pos hk]
          simp only [List.filter_cons, hbk]
          rw [filter_insertDesc key k a l, if_pos hk]
          simp
        · rw [if_neg hk]
          simp only [List.filter_cons]
          rw [filter_insertDesc key k a l, if_neg hk]

theorem filter_sortDesc {α : Type} (key : α → ℕ) (k : ℕ) :
    ∀ l : List α, (sortDesc key l).filter (fun x => key x == k) =
      l.filter (fun x => key x == k)
  | [] => rfl
  | a :: l => by
      show (insertDesc key a (sortDesc key l)).filter _ = _
      rw [filter_insertDesc key k a (sortDesc key l), filter_sortDesc key k l,
        List.filter_cons]
      by_cases hk : key a = k
      · rw [if_pos hk]
        simp [hk]
      · rw [if_neg hk]
        simp [hk]

theorem leOdds_refl (b : BestOdds) : leOdds b b :=
  ⟨le_refl _, le_refl _, le_refl _⟩

theorem leOdds_trans {a b c : BestOdds} (h1 : leOdds a b) (h2 : leOdds b c) :
    leOdds a c :=
  ⟨le_trans h1.1 h2.1, le_trans h1.2.1 h2.2.1, le_trans h1.2.2 h2.2.2⟩

theorem updateOutcome_le {home away : String} {b b' : BestOdds} {o : Outcome}
    (h : updateOutcome home away b o = Except.ok b') : leOdds b b' := by
  unfold updateOutcome at h
  split at h
  · split at h
    · cases h
      exact ⟨le_max_left _ _, le_refl _, le_refl _⟩
    · split at h
      · cases h
        exact ⟨le_refl _, le_refl _, le_max_left _ _⟩
      · cases h
        exact ⟨le_refl _, le_max_left _ _, le_refl _⟩
  · cases h

theorem foldOutcomes_le {home away : String} :
    ∀ {os : List Outcome} {b b' : BestOdds},
      foldOutcomes home away b os = Except.ok b' → leOdds b b' := by
  intro os
  induction os with
  | nil =>
      intro b b' h
      cases h
      exact leOdds_refl _
  | cons o os ih =>
      intro b b' h
      unfold foldOutcomes at h
      split at h
      case h_1 b1 hb1 => exact leOdds_trans (updateOutcome_le hb1) (ih h)
      case h_2 => cases h

theorem foldMarkets_le {home away : String} :
    ∀ {ms : List Market} {b b' : BestOdds},
      foldMarkets home away b ms = Except.ok b' → leOdds b b' := by
  intro ms
  induction ms with
  | nil =>
      intro b b' h
      cases h
      exact leOdds_refl _
  | cons m ms ih =>
      intro b b' h
      unfold foldMarkets at h
      split at h
      case h_1 b1 hb1 =>
        refine leOdds_trans ?_ (ih h)
        split at hb1
        · exact foldOutcomes_le hb1
        · cases hb1
          exact leOdds_refl _
      case h_2 => cases h

theorem foldBookmakers_le {home away : String} :
    ∀ {bks : List Bookmaker} {b b' : BestOdds},
      foldBookmakers home away b bks = Except.ok b' → leOdds b b' := by
  intro bks
  induction bks with
  | nil =>
      intro b b' h
      cases h
      exact leOdds_refl _
  | cons bk bks ih =>
      intro b b' h
      unfold foldBookmakers at h
      split at h
      case h_1 b1 hb1 => exact leOdds_trans (foldMarkets_le hb1) (ih h)
      case h_2 => cases h

theorem foldBookmakers_append_ok {home away : String} :
    ∀ {l₁ : List Bookmaker} (l₂ : List Bookmaker) {b b1 : BestOdds},
      foldBookmakers home away b l₁ = Except.ok b1 →
      foldBookmakers home away b (l₁ ++ l₂) = foldBookmakers home away b1 l₂ := by
  intro l₁
  induction l₁ with
  | nil =>
      intro l₂ b b1 h
      cases h
      rfl
  | cons bk l₁ ih =>
      intro l₂ b b1 h
      unfold foldBookmakers at h
      rw [List.cons_append]
      conv_lhs => rw [foldBookmakers]
      cases hm : foldMarkets home away b bk.markets with
      | ok b2 =>
          rw [hm] at h
          exact ih l₂ h
      | error e =>
          rw [hm] at h
          simp at h

theorem mem_mkPicks {b : BestOdds} {p : Pick} (hp : p ∈ mkPicks b) :
    inBand p.odds ∧ ∃ o, p = pickFor o p.odds := by
  unfold mkPicks at hp
  rcases List.mem_append.1 hp with h | h
  · rcases List.mem_append.1 h with h | h
    · by_cases hb : inBand b.home
      · rw [if_pos hb] at h
        rcases List.mem_singleton.1 h with rfl
        exact ⟨hb, "home", rfl⟩
      · rw [if_neg hb] at h
        cases h
    · by_cases hb : inBand b.draw
      · rw [if_pos hb] at h
        rcases List.mem_singleton.1 h with rfl
        exact ⟨hb, "draw", rfl⟩
      · rw [if_neg hb] at h
        cases h
  · by_cases hb : inBand b.away
    · rw [if_pos hb] at h
      rcases List.mem_singleton.1 h with rfl
      exact ⟨hb, "away", rfl⟩
    · rw [if_neg hb] at h
      cases h

theorem mkPicks_eq_nil {b : BestOdds} (h1 : ¬ inBand b.home) (h2 : ¬ inBand b.draw)
    (h3 : ¬ inBand b.away) : mkPicks b = [] := by
  unfold mkPicks
  rw [if_neg h1, if_neg h2, if_neg h3]
  rfl

theorem confidenceOf_eq (o : String) (q : ℚ) :
    confidenceOf o q =
      min (50 + (if q < 2.05 then 10 else 0) + (if o = "home" then 5 else 0)) 85 := by
  unfold confidenceOf
  by_cases h1 : q < 2.05 <;> by_cases h2 : o = "home" <;> simp [h1, h2]

theorem confidenceOf_unclamped (o : String) (q : ℚ) :
    confidenceOf o q =
      50 + (if q < 2.05 then 10 else 0) + (if o = "home" then 5 else 0) := by
  unfold confidenceOf
  by_cases h1 : q < 2.05 <;> by_cases h2 : o = "home" <;> simp [h1, h2]

theorem confidenceOf_cases (o : String) (q : ℚ) :
    confidenceOf o q = 50 ∨ confidenceOf o q = 55 ∨
      confidenceOf o q = 60 ∨ confidenceOf o q = 65 := by
  unfold confidenceOf
  by_cases h1 : q < 2.05 <;> by_cases h2 : o = "home" <;> simp [h1, h2]

theorem confidenceOf_bounds (o : String) (q : ℚ) :
    50 ≤ confidenceOf o q ∧ confidenceOf o q ≤ 85 := by
  rcases confidenceOf_cases o q with h | h | h | h <;> rw [h] <;> omega

theorem analyze_some_inv {m : RawMatch} {t : ℚ} {a : Analysis}
    (h : analyze_match m t = Except.ok (some a)) :
    bestOddsOf (m.home_team.getD "Unknown") (m.away_team.getD "Unknown") m.bookmakers
        = Except.ok a.odds ∧
      a.recommendation ∈ mkPicks a.odds ∧
      ∀ p ∈ mkPicks a.odds, |a.recommendation.odds - t| ≤ |p.odds - t| := by
  simp only [analyze_match] at h
  split at h
  · simp at h
  · split at h
    case h_1 e heqb => simp at h
    case h_2 best heqb =>
      split at h
      case h_1 heqs => simp at h
      case h_2 p rest heqs =>
        simp only [Except.ok.injEq, Option.some.injEq] at h
        subst h
        refine ⟨heqb, ?_, ?_⟩
        · have hmem : p ∈ sortAsc (fun p => |p.odds - t|) (mkPicks best) := by
            rw [heqs]
            exact List.mem_cons_self p rest
          exact (sortAsc_perm _ _).mem_iff.1 hmem
        · intro q hq
          exact sortAsc_head_le heqs q hq

theorem analyze_none_of {m : RawMatch} {t : ℚ} {b : BestOdds}
    (hb : bestOddsOf (m.home_team.getD "Unknown") (m.away_team.getD "Unknown")
            m.bookmakers = Except.ok b)
    (hp : mkPicks b = []) : analyze_match m t = Except.ok none := by
  simp only [analyze_match]
  split
  · rfl
  · rw [hb]
    simp [hp, sortAsc]

theorem analyze_isSome_eq (m : RawMatch) (t1 t2 : ℚ) :
    (analyze_match m t1).map Option.isSome = (analyze_match m t2).map Option.isSome := by
  simp only [analyze_match]
  split
  · rfl
  · cases hb : bestOddsOf (m.home_team.getD "Unknown") (m.away_team.getD "Unknown")
        m.bookmakers with
    | error e => rfl
    | ok best =>
        simp only []
        cases hs1 : sortAsc (fun p => |p.odds - t1|) (mkPicks best) with
        | nil =>
            have hnil : mkPicks best = [] := (sortAsc_nil_iff _ _).1 hs1
            have hs2 : sortAsc (fun p => |p.odds - t2|) (mkPicks best) = [] := by
              rw [hnil]
              rfl
            rw [hs2]
        | cons p rest =>
            have hne : mkPicks best ≠ [] := by
              intro hnil
              rw [hnil] at hs1
              simp [sortAsc] at hs1
            cases hs2 : sortAsc (fun p => |p.odds - t2|) (mkPicks best) with
            | nil => exact absurd ((sortAsc_nil_iff _ _).1 hs2) hne
            | cons q rest2 => rfl

theorem analyzeFixtures_length {t : ℚ} :
    ∀ {ms : List RawMatch} {l : List Analysis},
      analyzeFixtures t ms = Except.ok l → l.length ≤ ms.length := by
  intro ms
  induction ms with
  | nil =>
      intro l h
      cases h
      simp
  | cons m ms ih =>
      intro l h
      unfold analyzeFixtures at h
      split at h
      case h_1 => simp at h
      case h_2 => exact le_trans (ih h) (Nat.le_succ _)
      case h_3 a heqa =>
        split at h
        case h_1 => simp at h
        case h_2 rest heqr =>
          cases h
          simpa using Nat.succ_le_succ (ih heqr)

theorem updateOutcome_ok {home away : String} {b : BestOdds} {o : Outcome}
    (h : ∀ s, o.price ≠ some (PriceVal.nonNum s)) :
    ∃ b', updateOutcome home away b o = Except.ok b' := by
  unfold updateOutcome
  cases hp : o.price with
  | none =>
      simp only [hp, Option.getD_none]
      split
      · exact ⟨_, rfl⟩
      · split
        · exact ⟨_, rfl⟩
        · exact ⟨_, rfl⟩
  | some v =>
      cases v with
      | num q =>
          simp only [hp, Option.getD_some]
          split
          · exact ⟨_, rfl⟩
          · split
            · exact ⟨_, rfl⟩
            · exact ⟨_, rfl⟩
      | nonNum s => exact absurd hp (h s)

theorem foldOutcomes_ok {home away : String} :
    ∀ {os : List Outcome} {b : BestOdds},
      (∀ o ∈ os, ∀ s, o.price ≠ some (PriceVal.nonNum s)) →
      ∃ b', foldOutcomes home away b os = Except.ok b' := by
  intro os
  induction os with
  | nil =>
      intro b _
      exact ⟨b, rfl⟩
  | cons o os ih =>
      intro b hnum
      obtain ⟨b1, hb1⟩ :=
        updateOutcome_ok (b := b) (fun s => hnum o (List.mem_cons_self o os) s)
      obtain ⟨b', hb'⟩ :=
        ih (b := b1) (fun o' ho' s => hnum o' (List.mem_cons_of_mem o ho') s)
      refine ⟨b', ?_⟩
      unfold foldOutcomes
      rw [hb1]
      exact hb'

theorem foldMarkets_ok {home away : String} :
    ∀ {ms : List Market} {b : BestOdds},
      (∀ mk ∈ ms, ∀ o ∈ mk.outcomes, ∀ s, o.price ≠ some (PriceVal.nonNum s)) →
      ∃ b', foldMarkets home away b ms = Except.ok b' := by
  intro ms
  induction ms with
  | nil =>
      intro b _
      exact ⟨b, rfl⟩
  | cons mk ms ih =>
      intro b hnum
      have hstep : ∃ b1, (if mk.key = some "h2h" then foldOutcomes home away b mk.outcomes
                          else Except.ok b) = Except.ok b1 := by
        split
        · exact foldOutcomes_ok (fun o ho s => hnum mk (List.mem_cons_self mk ms) o ho s)
        · exact ⟨b, rfl⟩
      obtain ⟨b1, hb1⟩ := hstep
      obtain ⟨b', hb'⟩ :=
        ih (b := b1) (fun mk' hmk' => hnum mk' (List.mem_cons_of_mem mk hmk'))
      refine ⟨b', ?_⟩
      unfold foldMarkets
      rw [hb1]
      exact hb'

theorem foldBookmakers_ok {home away : String} :
    ∀ {bks : List Bookmaker} {b : BestOdds},
      (∀ bk ∈ bks, ∀ mk ∈ bk.markets, ∀ o ∈ mk.outcomes,
        ∀ s, o.price ≠ some (PriceVal.nonNum s)) →
      ∃ b', foldBookmakers home away b bks = Except.ok b' := by
  intro bks
  induction bks with
  | nil =>
      intro b _
      exact ⟨b, rfl⟩
  | cons bk bks ih =>
      intro b hnum
      obtain ⟨b1, hb1⟩ :=
        foldMarkets_ok (b := b) (fun mk hmk => hnum bk (List.mem_cons_self bk bks) mk hmk)
      obtain ⟨b', hb'⟩ :=
        ih (b := b1) (fun bk' hbk' => hnum bk' (List.mem_cons_of_mem bk hbk'))
      refine ⟨b', ?_⟩
      unfold foldBookmakers
      rw [hb1]
      exact hb'

theorem analyze_isOk_of_numeric {m : RawMatch} {t : ℚ} (h : NumericPrices m) :
    ∃ r, analyze_match m t = Except.ok r := by
  simp only [analyze_match]
  split
  · exact ⟨none, rfl⟩
  · obtain ⟨b, hb⟩ := @foldBookmakers_ok (m.home_team.getD "Unknown")
      (m.away_team.getD "Unknown") m.bookmakers ⟨0, 0, 0⟩ h
    have hb' : bestOddsOf (m.home_team.getD "Unknown") (m.away_team.getD "Unknown")
        m.bookmakers = Except.ok b := hb
    rw [hb']
    simp only []
    cases hs : sortAsc (fun p => |p.odds - t|) (mkPicks b) with
    | nil => exact ⟨none, rfl⟩
    | cons p rest => exact ⟨_, rfl⟩

theorem analyze_exConf50 : analyze_match exConf50 2 = Except.ok (some exAnalysis50) := by
  simp [analyze_match, bestOddsOf, foldBookmakers, foldMarkets, foldOutcomes,
    updateOutcome, mkPicks, pickFor, confidenceOf, inBand, sortAsc, insertAsc,
    exConf50, exFixture, exOutcome, exAnalysis50, toUpper_home, toUpper_draw, toUpper_away]
  norm_num [sortAsc, insertAsc, max_def]

theorem analyze_exConf55 :
    (analyze_match exConf55 2).map (Option.map fun a => a.recommendation.confidence)
      = Except.ok (some 55) := by
  simp [analyze_match, bestOddsOf, foldBookmakers, foldMarkets, foldOutcomes,
    updateOutcome, mkPicks, pickFor, confidenceOf, inBand, sortAsc, insertAsc,
    exConf55, exFixture, exOutcome, toUpper_home, toUpper_draw, toUpper_away]
  norm_num [sortAsc, insertAsc, max_def, Except.map, Option.map]

theorem analyze_exConf60 :
    (analyze_match exConf60 2).map (Option.map fun a => a.recommendation.confidence)
      = Except.ok (some 60) := by
  simp [analyze_match, bestOddsOf, foldBookmakers, foldMarkets, foldOutcomes,
    updateOutcome, mkPicks, pickFor, confidenceOf, inBand, sortAsc, insertAsc,
    exConf60, exFixture, exOutcome, toUpper_home, toUpper_draw, toUpper_away]
  norm_num [sortAsc, insertAsc, max_def, Except.map, Option.map]

theorem analyze_exBand220 :
    (analyze_match exBand220 2).map (Option.map fun a => a.recommendation.odds)
      = Except.ok (some 2.20) := by
  simp [analyze_match, bestOddsOf, foldBookmakers, foldMarkets, foldOutcomes,
    updateOutcome, mkPicks, pickFor, confidenceOf, inBand, sortAsc, insertAsc,
    exBand220, exFixture, exOutcome, toUpper_home, toUpper_draw, toUpper_away]
  norm_num [sortAsc, insertAsc, max_def, Except.map, Option.map]

theorem analyze_exBand221 : analyze_match exBand221 2 = Except.ok none := by
  simp [analyze_match, bestOddsOf, foldBookmakers, foldMarkets, foldOutcomes,
    updateOutcome, mkPicks, pickFor, confidenceOf, inBand, sortAsc, insertAsc,
    exBand221, exFixture, exOutcome, toUpper_home, toUpper_draw, toUpper_away]
  norm_num [sortAsc, insertAsc, max_def]

theorem bestOdds_exMatch1 :
    bestOddsOf (exMatch1.home_team.getD "Unknown") (exMatch1.away_team.getD "Unknown")
      exMatch1.bookmakers = Except.ok ⟨2, 3.40, 3.60⟩ := by
  simp [bestOddsOf, foldBookmakers, foldMarkets, foldOutcomes, updateOutcome,
    exMatch1, exFixture, exOutcome]
  norm_num [max_def]

theorem bestOdds_exBk19 :
    bestOddsOf "H" "A" [exBk "H" 1.9] = Except.ok ⟨1.9, 0, 0⟩ := by
  simp [bestOddsOf, foldBookmakers, foldMarkets, foldOutcomes, updateOutcome,
    exBk, exOutcome]
  norm_num [max_def]

theorem bestOdds_exBk19_app :
    bestOddsOf "H" "A" ([exBk "H" 1.9] ++ [exBk "H" 2]) = Except.ok ⟨2, 0, 0⟩ := by
  simp [bestOddsOf, foldBookmakers, foldMarkets, foldOutcomes, updateOutcome,
    exBk, exOutcome]
  norm_num [max_def]

theorem find_best_exFetch2 :
    find_best_bets exFetch2 ["L1", "L2"] 2 =
      Except.ok [exAnalysis1, exAnalysis1, exAnalysis50, exAnalysis50] := by
  have h1 : analyze_match exMatch1 2 = Except.ok (some exAnalysis1) :=
    analyze_exMatch1 2 (Or.inl rfl)
  simp [find_best_bets, collectAnalyses, analyzeFixtures, exFetch2, List.take,
    h1, analyze_exConf50, sortDesc, insertDesc, exAnalysis1, exAnalysis50]

theorem analyzeFixtures_exFetch8 :
    analyzeFixtures 2 ((exFetch8 "L").take 5) =
      Except.ok (List.replicate 5 exAnalysis1) := by
  have h1 : analyze_match exMatch1 2 = Except.ok (some exAnalysis1) :=
    analyze_exMatch1 2 (Or.inl rfl)
  simp [analyzeFixtures, exFetch8, List.replicate, List.take, h1]

/-- C1: for every fixture and target price, if `analyze_match` returns an
analysis then its recommended pick's price lies in the closed interval
[1.80, 2.20] (a best price of exactly 2.20 is accepted, 2.21 rejected,
checked on concrete fixtures), and no analysis is returned when all three
best prices (home, draw, away) lie outside that interval. -/
theorem claim_C1_band_invariant :
    (∀ (m : RawMatch) (t : ℚ) (a : Analysis),
        analyze_match m t = Except.ok (some a) →
        1.80 ≤ a.recommendation.odds ∧ a.recommendation.odds ≤ 2.20) ∧
    (∀ (m : RawMatch) (t : ℚ) (b : BestOdds),
        bestOddsOf (m.home_team.getD "Unknown") (m.away_team.getD "Unknown")
            m.bookmakers = Except.ok b →
        ¬ inBand b.home → ¬ inBand b.draw → ¬ inBand b.away →
        analyze_match m t = Except.ok none) ∧
    (analyze_match exBand220 2).map (Option.map fun a => a.recommendation.odds)
        = Except.ok (some 2.20) ∧
    analyze_match exBand221 2 = Except.ok none := by
  refine ⟨?_, ?_, analyze_exBand220, analyze_exBand221⟩
  · intro m t a h
    exact (mem_mkPicks (analyze_some_inv h).2.1).1
  · intro m t b hb h1 h2 h3
    exact analyze_none_of hb (mkPicks_eq_nil h1 h2 h3)

/-- Witness for C1 at concrete inputs: the Arsenal/Chelsea fixture yields a
pick priced in band, and a fixture with no bookmakers (all best prices 0,
outside the band) yields no analysis. -/
theorem claim_C1_witness :
    (1.80 ≤ exAnalysis1.recommendation.odds ∧ exAnalysis1.recommendation.odds ≤ 2.20) ∧
    analyze_match exNoBooks 2 = Except.ok none :=
  ⟨claim_C1_band_invariant.1 exMatch1 2 exAnalysis1 (analyze_exMatch1 2 (Or.inl rfl)),
   claim_C1_band_invariant.2.1 exNoBooks 2 ⟨0, 0, 0⟩ rfl
     (by norm_num [inBand]) (by norm_num [inBand]) (by norm_num [inBand])⟩

/-- C2: for every in-band candidate the computed confidence is
50, +10 if the price is strictly below 2.05, +5 for the home outcome,
clamped above at 85; every emitted pick's confidence lies in [50, 85];
and the spec's example fixture (home price 2.00) yields confidence 65. -/
theorem claim_C2_confidence_formula :
    (∀ (o : String) (q : ℚ),
        confidenceOf o q =
          min (50 + (if q < 2.05 then 10 else 0) + (if o = "home" then 5 else 0)) 85) ∧
    (∀ (m : RawMatch) (t : ℚ) (a : Analysis),
        analyze_match m t = Except.ok (some a) →
        50 ≤ a.recommendation.confidence ∧ a.recommendation.confidence ≤ 85) ∧
    (analyze_match exMatch1 2).map (Option.map fun a => a.recommendation.confidence)
        = Except.ok (some 65) := by
  refine ⟨confidenceOf_eq, ?_, ?_⟩
  · intro m t a h
    obtain ⟨hband, o, hp⟩ := mem_mkPicks (analyze_some_inv h).2.1
    have hc : a.recommendation.confidence = confidenceOf o a.recommendation.odds := by
      rw [hp]
      simp [pickFor]
    rw [hc]
    exact confidenceOf_bounds o _
  · rw [analyze_exMatch1 2 (Or.inl rfl)]
    rfl

/-- Witness for C2 at a concrete input: the Arsenal/Chelsea analysis has
confidence between 50 and 85. -/
theorem claim_C2_witness :
    50 ≤ exAnalysis1.recommendation.confidence ∧
      exAnalysis1.recommendation.confidence ≤ 85 :=
  claim_C2_confidence_formula.2.1 exMatch1 2 exAnalysis1 (analyze_exMatch1 2 (Or.inl rfl))

/-- C3: given the best-price record of a fixture, the returned pick is an
in-band candidate minimizing the absolute distance to the target price over
all in-band candidates, and if no outcome price lies in the band (the
candidate list is empty) `analyze_match` returns none. -/
theorem claim_C3_closest_to_target :
    ∀ (m : RawMatch) (t : ℚ) (b : BestOdds),
      bestOddsOf (m.home_team.getD "Unknown") (m.away_team.getD "Unknown")
          m.bookmakers = Except.ok b →
      (∀ a, analyze_match m t = Except.ok (some a) →
          a.recommendation ∈ mkPicks b ∧
          ∀ p ∈ mkPicks b, |a.recommendation.odds - t| ≤ |p.odds - t|) ∧
      (mkPicks b = [] → analyze_match m t = Except.ok none) := by
  intro m t b hb
  constructor
  · intro a h
    obtain ⟨hb', hmem, hmin⟩ := analyze_some_inv h
    have hab : a.odds = b := Except.ok.inj (hb'.symm.trans hb)
    rw [← hab]
    exact ⟨hmem, hmin⟩
  · intro hnil
    exact analyze_none_of hb hnil

/-- Witness for C3 at a concrete input: the Arsenal/Chelsea pick is an
in-band candidate of its best-price record and minimizes the distance to
target 2. -/
theorem claim_C3_witness :
    exAnalysis1.recommendation ∈ mkPicks ⟨2, 3.40, 3.60⟩ ∧
    ∀ p ∈ mkPicks ⟨2, 3.40, 3.60⟩,
      |exAnalysis1.recommendation.odds - 2| ≤ |p.odds - 2| :=
  (claim_C3_closest_to_target exMatch1 2 ⟨2, 3.40, 3.60⟩ bestOdds_exMatch1).1
    exAnalysis1 (analyze_exMatch1 2 (Or.inl rfl))

/-- C4: the list returned by `find_best_bets` is sorted in descending order
of the recommendation's confidence, and analyses with equal confidence
appear in the same relative order as they were collected during the
fan-out (league order, then within-league fixture order): for every
confidence value, filtering the output agrees with filtering the collected
list. -/
theorem claim_C4_stable_ranking :
    ∀ (fetch : String → List RawMatch) (leagues : List String) (t : ℚ)
      (l : List Analysis),
      find_best_bets fetch leagues t = Except.ok l →
      l.Pairwise (fun a b => b.recommendation.confidence ≤ a.recommendation.confidence) ∧
      ∃ c, collectAnalyses fetch t leagues = Except.ok c ∧
        ∀ k : ℕ, l.filter (fun a => a.recommendation.confidence == k) =
          c.filter (fun a => a.recommendation.confidence == k) := by
  intro fetch leagues t l h
  unfold find_best_bets at h
  split at h
  case h_1 => simp at h
  case h_2 c hc =>
    cases h
    exact ⟨pairwise_sortDesc _ c, c, hc,
      fun k => filter_sortDesc (fun a => a.recommendation.confidence) k c⟩

/-- Witness for C4 at a concrete input: two leagues of two fixtures each
(confidences 65, 50 per league) rank as 65, 65, 50, 50 with ties in
fan-out order. -/
theorem claim_C4_witness :
    ([exAnalysis1, exAnalysis1, exAnalysis50, exAnalysis50] : List Analysis).Pairwise
        (fun a b => b.recommendation.confidence ≤ a.recommendation.confidence) ∧
    ∃ c, collectAnalyses exFetch2 2 ["L1", "L2"] = Except.ok c ∧
      ∀ k : ℕ,
        ([exAnalysis1, exAnalysis1, exAnalysis50, exAnalysis50] : List Analysis).filter
            (fun a => a.recommendation.confidence == k) =
          c.filter (fun a => a.recommendation.confidence == k) :=
  claim_C4_stable_ranking exFetch2 ["L1", "L2"] 2
    [exAnalysis1, exAnalysis1, exAnalysis50, exAnalysis50] find_best_exFetch2

/-- C5: per league only the first 5 fixtures are analyzed — the per-league
contribution has length at most 5, and `find_best_bets` is unchanged by any
modification of the data source beyond each league's first 5 fixtures. -/
theorem claim_C5_cap_enforcement :
    ∀ (fetch : String → List RawMatch) (t : ℚ) (lg : String) (l : List Analysis),
      (analyzeFixtures t ((fetch lg).take 5) = Except.ok l → l.length ≤ 5) ∧
      ∀ fetch2 : String → List RawMatch,
        (∀ g, (fetch g).take 5 = (fetch2 g).take 5) →
        ∀ leagues, find_best_bets fetch leagues t = find_best_bets fetch2 leagues t := by
  intro fetch t lg l
  constructor
  · intro h
    refine le_trans (analyzeFixtures_length h) ?_
    rw [List.length_take]
    exact min_le_left _ _
  · intro fetch2 hagree leagues
    have hcol : ∀ ls, collectAnalyses fetch t ls = collectAnalyses fetch2 t ls := by
      intro ls
      induction ls with
      | nil => rfl
      | cons lg' rest ih =>
          unfold collectAnalyses
          rw [hagree lg', ih]
    unfold find_best_bets
    rw [hcol leagues]

/-- Witness for C5 at a concrete input: a league supplying 8 fixtures
contributes exactly 5 analyses. -/
theorem claim_C5_witness : (List.replicate 5 exAnalysis1).length ≤ 5 :=
  (claim_C5_cap_enforcement exFetch8 2 "L" (List.replicate 5 exAnalysis1)).1
    analyzeFixtures_exFetch8

/-- C6: for every fixture, `analyze_match` returns an analysis at target
price t1 iff it does at t2 (and errors coincide likewise), and when both
return analyses they carry the same best-price record, hence the same
in-band candidate set: the target price only influences which candidate is
chosen, never contention. -/
theorem claim_C6_target_only_ranks :
    ∀ (m : RawMatch) (t1 t2 : ℚ),
      (analyze_match m t1).map Option.isSome = (analyze_match m t2).map Option.isSome ∧
      ∀ a1 a2, analyze_match m t1 = Except.ok (some a1) →
        analyze_match m t2 = Except.ok (some a2) →
        a1.odds = a2.odds ∧ mkPicks a1.odds = mkPicks a2.odds ∧
        a1.recommendation ∈ mkPicks a1.odds ∧ a2.recommendation ∈ mkPicks a1.odds := by
  intro m t1 t2
  refine ⟨analyze_isSome_eq m t1 t2, ?_⟩
  intro a1 a2 h1 h2
  obtain ⟨hb1, hm1, hmin1⟩ := analyze_some_inv h1
  obtain ⟨hb2, hm2, hmin2⟩ := analyze_some_inv h2
  have heq : a1.odds = a2.odds := Except.ok.inj (hb1.symm.trans hb2)
  refine ⟨heq, by rw [heq], hm1, ?_⟩
  rw [heq]
  exact hm2

/-- Witness for C6 at a concrete input: the Arsenal/Chelsea fixture analyzed
at targets 2 and 3 yields the same best-price record and candidate set. -/
theorem claim_C6_witness :
    exAnalysis1.odds = exAnalysis1.odds ∧
    mkPicks exAnalysis1.odds = mkPicks exAnalysis1.odds ∧
    exAnalysis1.recommendation ∈ mkPicks exAnalysis1.odds ∧
    exAnalysis1.recommendation ∈ mkPicks exAnalysis1.odds :=
  (claim_C6_target_only_ranks exMatch1 2 3).2 exAnalysis1 exAnalysis1
    (analyze_exMatch1 2 (Or.inl rfl)) (analyze_exMatch1 3 (Or.inr rfl))

/-- C7: the best-price reduction is a monotonic max-fold — appending one
more bookmaker quote to a fixture's bookmaker list never decreases any of
home/draw/away in the resulting best-price record. -/
theorem claim_C7_monotonic_reduction :
    ∀ (home away : String) (bks : List Bookmaker) (q : Bookmaker) (b b' : BestOdds),
      bestOddsOf home away bks = Except.ok b →
      bestOddsOf home away (bks ++ [q]) = Except.ok b' →
      b.home ≤ b'.home ∧ b.draw ≤ b'.draw ∧ b.away ≤ b'.away := by
  intro home away bks q b b' h1 h2
  unfold bestOddsOf at h1 h2
  rw [foldBookmakers_append_ok [q] h1] at h2
  exact foldBookmakers_le h2

/-- Witness for C7 at a concrete input: appending a quote of 2.0 to a list
quoting 1.9 raises the home best price and leaves draw/away unchanged. -/
theorem claim_C7_witness :
    (⟨1.9, 0, 0⟩ : BestOdds).home ≤ (⟨2, 0, 0⟩ : BestOdds).home ∧
    (⟨1.9, 0, 0⟩ : BestOdds).draw ≤ (⟨2, 0, 0⟩ : BestOdds).draw ∧
    (⟨1.9, 0, 0⟩ : BestOdds).away ≤ (⟨2, 0, 0⟩ : BestOdds).away :=
  claim_C7_monotonic_reduction "H" "A" [exBk "H" 1.9] (exBk "H" 2)
    ⟨1.9, 0, 0⟩ ⟨2, 0, 0⟩ bestOdds_exBk19 bestOdds_exBk19_app

/-- C8: a fixture whose bookmakers sequence is empty yields, for every
target price, an immediate successful "no analysis" result — not an
error. -/
theorem claim_C8_missing_data :
    ∀ (m : RawMatch) (t : ℚ), m.bookmakers = [] →
      analyze_match m t = Except.ok none := by
  intro m t h
  simp [analyze_match, h]

/-- Witness for C8 at a concrete input. -/
theorem claim_C8_witness : analyze_match exNoBooks 2 = Except.ok none :=
  claim_C8_missing_data exNoBooks 2 rfl

/-- C9 counterexample: on a fixture whose single outcome carries a
non-numeric price value, `analyze_match` raises (`max(0, price)` is a
`TypeError` in Python 3) instead of treating the price as 0 — refuting, at
this concrete input, the claim that a non-numeric price is treated as 0 and
`analyze_match` never raises. -/
theorem claim_C9_counterexample :
    analyze_match exBadMatch 2 = Except.error "TypeError" := by
  simp [analyze_match, bestOddsOf, foldBookmakers, foldMarkets, foldOutcomes,
    updateOutcome, exBadMatch]

/-- C9 (amended): an outcome whose price field is *absent* is treated
exactly as price 0 (which is never in the band, so the outcome is excluded
from contention), and `analyze_match` never raises on a fixture all of
whose present prices are numeric; a present non-numeric price, by contrast,
raises a TypeError that propagates (see the counterexample). -/
theorem claim_C9_absent_price_zero :
    (∀ (home away : String) (b : BestOdds) (o : Outcome), o.price = none →
        updateOutcome home away b o =
          updateOutcome home away b ⟨o.name, some (PriceVal.num 0)⟩) ∧
    (¬ inBand 0) ∧
    (∀ (m : RawMatch) (t : ℚ), NumericPrices m →
        ∃ r, analyze_match m t = Except.ok r) := by
  refine ⟨?_, ?_, ?_⟩
  · intro home away b o hp
    unfold updateOutcome
    rw [hp]
    rfl
  · norm_num [inBand]
  · intro m t h
    exact analyze_isOk_of_numeric h

/-- Witness for the amended C9 at concrete inputs: an absent price behaves
as price 0, and a fixture with numeric prices analyzes without error. -/
theorem claim_C9_witness :
    updateOutcome "H" "A" ⟨0, 0, 0⟩ ⟨some "X", none⟩ =
      updateOutcome "H" "A" ⟨0, 0, 0⟩ ⟨some "X", some (PriceVal.num 0)⟩ ∧
    ∃ r, analyze_match exMatch1 2 = Except.ok r :=
  ⟨claim_C9_absent_price_zero.1 "H" "A" ⟨0, 0, 0⟩ ⟨some "X", none⟩ rfl,
   claim_C9_absent_price_zero.2.2 exMatch1 2
     (by simp [NumericPrices, exMatch1, exFixture, exOutcome])⟩

/-- C10: every confidence produced by `analyze_match` is at most 65 and lies
in {50, 55, 60, 65}; the unclamped formula shows the clamp at 85 never
alters any value, and all four values are achieved on concrete fixtures. -/
theorem claim_C10_clamp_never_fires :
    (∀ (o : String) (q : ℚ),
        confidenceOf o q =
          50 + (if q < 2.05 then 10 else 0) + (if o = "home" then 5 else 0)) ∧
    (∀ (m : RawMatch) (t : ℚ) (a : Analysis),
        analyze_match m t = Except.ok (some a) →
        a.recommendation.confidence ≤ 65 ∧
        (a.recommendation.confidence = 50 ∨ a.recommendation.confidence = 55 ∨
         a.recommendation.confidence = 60 ∨ a.recommendation.confidence = 65)) ∧
    (analyze_match exConf50 2).map (Option.map fun a => a.recommendation.confidence)
        = Except.ok (some 50) ∧
    (analyze_match exConf55 2).map (Option.map fun a => a.recommendation.confidence)
        = Except.ok (some 55) ∧
    (analyze_match exConf60 2).map (Option.map fun a => a.recommendation.confidence)
        = Except.ok (some 60) ∧
    (analyze_match exMatch1 2).map (Option.map fun a => a.recommendation.confidence)
        = Except.ok (some 65) := by
  refine ⟨confidenceOf_unclamped, ?_, ?_, analyze_exConf55, analyze_exConf60, ?_⟩
  · intro m t a h
    obtain ⟨hband, o, hp⟩ := mem_mkPicks (analyze_some_inv h).2.1
    have hc : a.recommendation.confidence = confidenceOf o a.recommendation.odds := by
      rw [hp]
      simp [pickFor]
    rcases confidenceOf_cases o a.recommendation.odds with hv | hv | hv | hv <;>
      rw [hc, hv] <;> omega
  · rw [analyze_exConf50]
    rfl
  · rw [analyze_exMatch1 2 (Or.inl rfl)]
    rfl

/-- Witness for C10 at a concrete input: the Arsenal/Chelsea analysis has
confidence at most 65 and in {50, 55, 60, 65}. -/
theorem claim_C10_witness :
    exAnalysis1.recommendation.confidence ≤ 65 ∧
    (exAnalysis1.recommendation.confidence = 50 ∨
     exAnalysis1.recommendation.confidence = 55 ∨
     exAnalysis1.recommendation.confidence = 60 ∨
     exAnalysis1.recommendation.confidence = 65) :=
  claim_C10_clamp_never_fires.2.1 exMatch1 2 exAnalysis1 (analyze_exMatch1 2 (Or.inl rfl))
